import Mathlib

/-!
Verification of the Neurax autonomous social-engagement engine.

Shallow embedding of the TypeScript sources:
* `src/unnamed/part_002` — `AIService` (generation fallback chain),
* `src/server/services/trending.ts` — `TrendingAnalysisService` (trend aggregator),
* `src/server/services/autonomous.ts` — `AutonomousService` (cycle scheduler,
  reply budget, activity ring buffer, status surface).

Modelling conventions:
* JavaScript strings are modelled as `List Char` (`Str`).  Lengths are
  code-point counts rather than UTF-16 code-unit counts; the only non-BMP
  characters in play are the fixed emoji of the fallback templates, far below
  every length threshold that matters, so no decision in the embedded code is
  affected.
* JavaScript numbers are modelled exactly: lengths and counters as `Nat`/`Int`,
  scores and volumes as `Rat`.  Float comparisons against `1.2 ×` and `0.7 ×`
  thresholds are idealised as exact rational comparisons (`5·len > 6·cap`,
  `10·idx > 7·cap`).
* External calls (providers, platform, market source) are oracles passed in as
  `Except`/`Option` values; `Math.random` template selection is an arbitrary
  index reduced modulo the template-table size.
* The `async`/event-loop behaviour of `start`/`stop` is modelled as an atomic
  step sequence with an explicit interleaving point at the single `await` of
  the first cycle inside `start`.
-/

namespace Neurax

/-- JavaScript strings, modelled as lists of characters. -/
abbrev Str := List Char

/-- The apostrophe character (written via its code point). -/
def apos : Char := Char.ofNat 39

/-- `s.substring(0, n)` for an `Int` index `n`: negative indices clamp to 0. -/
def jsTakeI (s : Str) (n : Int) : Str := s.take n.toNat

/-- The character class matched by JavaScript `\s` (the subset that occurs in
the embedded strings). -/
def isJsWs (c : Char) : Bool := c == ' ' || c == '\t' || c == '\n' || c == '\r'

/-- `String.prototype.trim`: strip leading and trailing whitespace. -/
def jsTrim (s : Str) : Str := ((s.dropWhile isJsWs).reverse.dropWhile isJsWs).reverse

/-- `String.prototype.toLowerCase` (ASCII range, which covers every keyword the
source compares case-insensitively). -/
def lowerStr (s : Str) : Str := s.map Char.toLower

/-- `hay.includes(pat)`: substring containment. -/
def containsSub (hay pat : Str) : Bool :=
  match hay with
  | [] => pat.isEmpty
  | _ :: t => pat.isPrefixOf hay || containsSub t pat

/-- `s.lastIndexOf(" ", pos)`: the largest index `i ≤ pos` holding a space,
`-1` if none (a negative `pos` behaves like `0`, as in JavaScript). -/
def lastSpaceIdx (s : Str) (pos : Int) : Int :=
  match (List.range (min (pos.toNat + 1) s.length)).reverse.find?
      (fun i => s.getD i 'x' == ' ') with
  | some i => (i : Int)
  | none => -1

/-- The four content types accepted by `generateTextContent`. -/
inductive ContentType where
  | tweet
  | thread
  | reply
  | meme
deriving DecidableEq

/-- The `templates.tweet` table of `generateFallbackContent`, with the
`${topic}` interpolation applied. -/
def tweetTemplates (topic : Str) : List Str :=
  [ ("🚀 ".data) ++ topic ++ (" is trending! #crypto #trading".data),
    ("💰 Exploring ".data) ++ topic ++ (" opportunities #finance".data),
    ("📈 ".data) ++ topic ++ (" analysis coming soon! #market".data),
    ("⚡ ".data) ++ topic ++ (" update: Stay tuned! #crypto".data),
    ("🎯 ".data) ++ topic ++ (" insights #trading #blockchain".data) ]

/-- The `templates.thread` table. -/
def threadTemplates (topic : Str) : List Str :=
  [ ("🧵 Let".data) ++ [apos] ++ ("s talk about ".data) ++ topic ++ ("... (1/n)".data),
    ("📊 ".data) ++ topic ++ (" breakdown thread 👇".data),
    ("🔍 Deep dive into ".data) ++ topic ++ ("... (1/x)".data),
    ("💡 ".data) ++ topic ++ (" explained simply... (1/n)".data) ]

/-- The `templates.reply` table. -/
def replyTemplates (topic : Str) : List Str :=
  [ ("Great point about ".data) ++ topic ++ ("! 👍".data),
    ("Interesting perspective on ".data) ++ topic,
    ("Thanks for sharing about ".data) ++ topic ++ ("!".data),
    topic ++ (" is definitely worth discussing".data) ]

/-- The `templates.meme` table. -/
def memeTemplates (topic : Str) : List Str :=
  [ ("When ".data) ++ topic ++ (" hits different 😂".data),
    topic ++ (" be like... 🤔".data),
    ("POV: You".data) ++ [apos] ++ ("re explaining ".data) ++ topic ++ (" 📈".data),
    topic ++ (" energy 💯".data) ]

/-- `templates[contentType]` (every content type has a table, so the
`|| templates.tweet` default of the source is never taken). -/
def templatesFor (t : ContentType) (topic : Str) : List Str :=
  match t with
  | .tweet => tweetTemplates topic
  | .thread => threadTemplates topic
  | .reply => replyTemplates topic
  | .meme => memeTemplates topic

/-- `generateFallbackContent(topic, contentType, maxLength)`: pick a template
(`i` stands for the `Math.random` draw, taken modulo the table size) and
truncate to `maxLength - 3` plus an ellipsis when too long. -/
def generateFallbackContent (topic : Str) (t : ContentType) (maxLength : ℕ) (i : ℕ) : Str :=
  let options := templatesFor t topic
  let content := options.getD (i % options.length) []
  if maxLength < content.length then
    jsTakeI content ((maxLength : Int) - 3) ++ ("...".data)
  else content

/-- The `promptKeywords` instruction-leakage phrase list of
`generateWithHuggingFace`. -/
def promptKeywords : List Str :=
  [ ("Generate".data), ("Write".data), ("Create".data), ("Maximum length:".data),
    ("IMPORTANT:".data), ("single tweet".data), ("professional tone".data),
    ("Use relevant hashtags".data), ("content type:".data), ("tone:".data),
    ("topic:".data), ("instructions:".data), ("prompt:".data), ("Here is".data),
    ("Here are".data), ("Below is".data), ("Following is".data) ]

/-- `containsPromptKeywords`: case-insensitive substring scan of the generated
text against `promptKeywords`. -/
def hfLeak (s : Str) : Bool :=
  promptKeywords.any (fun kw => containsSub (lowerStr s) (lowerStr kw))

/-- `shouldUseFallback`: leakage detected, or length strictly above
`1.2 × effectiveMaxLength` (stated exactly as `5·len > 6·eff`). -/
def hfShouldFallback (s : Str) (eff : ℕ) : Bool :=
  hfLeak s || decide (s.length * 5 > eff * 6)

/-- The role labels stripped by the label regex (an `i`-flag pattern matching
`^.*?(?:Tweet:|Thread:|Reply:|Meme:)` followed by a whitespace run),
lower-cased for matching. -/
def roleLabels : List Str :=
  [ ("tweet:".data), ("thread:".data), ("reply:".data), ("meme:".data) ]

/-- Length of the role label matching at the head of `s`, if any
(case-insensitive). -/
def matchLabelAt (s : Str) : Option ℕ :=
  (roleLabels.find? (fun l => lowerStr (s.take l.length) == l)).map List.length

/-- Scan for the earliest role-label occurrence; `.*?` in the source regex
cannot cross a newline, so the scan stops at the first `'\n'`.  Returns the
remainder after the label and the following `\s*` run, when a label is found. -/
def stripLabelScan : Str → Option Str
  | [] => none
  | c :: rest =>
    match matchLabelAt (c :: rest) with
    | some n => some (((c :: rest).drop n).dropWhile isJsWs)
    | none => if c == '\n' then none else stripLabelScan rest

/-- The `generatedText.replace` call erasing everything through the first role
label of the first line (the `i`-flag label regex above), replaced by the
empty string. -/
def stripLabel (s : Str) : Str :=
  match stripLabelScan s with
  | some r => r
  | none => s

/-- Quote characters recognised by the wrapping-quote regexes. -/
def isQuote (c : Char) : Bool := c == '"' || c == apos

/-- `generatedText.replace(/^["~(.*)~"]$/s, "$1")` of the Hugging Face path
(the regex strips one leading and one trailing quote when both ends are
quotes): matches exactly when the text has length at least two, starts with a
quote and ends with a quote. -/
def stripQuotesHF (s : Str) : Str :=
  if 2 ≤ s.length ∧ isQuote (s.getD 0 'x') ∧ isQuote (s.getD (s.length - 1) 'x') then
    (s.drop 1).dropLast
  else s

/-- The cleanup applied to accepted Hugging Face text: strip a leading role
label, strip wrapping quotes, trim. -/
def hfClean (s : Str) : Str := jsTrim (stripQuotesHF (stripLabel s))

/-- The whitespace-boundary truncation shared by the Hugging Face and
OpenRouter paths: cut at the last space at or before `cap - 3` provided that
lies strictly above `0.7 × cap` (stated exactly as `10·idx > 7·cap`), else
hard-cut at `cap - 3`; append an ellipsis. -/
def truncAtSpace (s : Str) (cap : ℕ) : Str :=
  let cutPoint : Int := (cap : Int) - 3
  let lastSpace := lastSpaceIdx s cutPoint
  let cutPoint := if lastSpace * 10 > (cap : Int) * 7 then lastSpace else cutPoint
  jsTrim (jsTakeI s cutPoint) ++ ("...".data)

/-- The two-stage length enforcement of the Hugging Face path: ellipsis
truncation against the effective cap, then the final hard truncate to the raw
requested `maxLength`. -/
def hfTruncate (s : Str) (eff maxLength : ℕ) : Str :=
  let s := if eff < s.length then truncAtSpace s eff else s
  if maxLength < s.length then jsTakeI s maxLength else s

/-- The post-processing `generateWithHuggingFace` applies to a non-empty
`generated_text`: compute the effective cap `min(maxLength, 280)`, replace the
text by a template fallback when instruction leakage or overlength is
detected, otherwise clean it, then enforce lengths. -/
def hfProcessText (topic : Str) (t : ContentType) (maxLength : ℕ) (s : Str) (i : ℕ) : Str :=
  let eff := min maxLength 280
  let gt := if hfShouldFallback s eff then generateFallbackContent topic t eff i
            else hfClean s
  hfTruncate gt eff maxLength

/-- The JSON body the Hugging Face call ends up with (after the internal
model-retry chain, which only affects which model answered). -/
inductive HFData where
  /-- An array whose first element carries `generated_text`. -/
  | arrText (s : Str)
  /-- An object carrying `generated_text`. -/
  | objText (s : Str)
  /-- An object carrying an `error` field. -/
  | objError (e : Str)
  /-- An object carrying a `message` field. -/
  | objMessage (m : Str)
  /-- A bare JSON string body. -/
  | rawString (s : Str)
  /-- `null` or any other unusable shape. -/
  | nullData
deriving DecidableEq

/-- The `generated_text` extracted from the response (empty when absent —
JavaScript treats an empty `generated_text` as absent via truthiness). -/
def hfExtract : HFData → Str
  | .arrText s => s
  | .objText s => s
  | _ => []

/-- `generateWithHuggingFace`: process a non-empty `generated_text`; an empty
result falls through to the error/message/raw-string handling, whose `throw`s
are modelled as `Except.error`. -/
def generateWithHuggingFace (topic : Str) (t : ContentType) (maxLength : ℕ)
    (data : HFData) (i : ℕ) : Except Str Str :=
  let raw := hfExtract data
  let processed := if raw.isEmpty then [] else hfProcessText topic t maxLength raw i
  if processed.isEmpty = false then .ok processed
  else
    match data with
    | .objError e => .error (("Hugging Face API error: ".data) ++ e)
    | .objMessage m => .error (("Hugging Face API message: ".data) ++ m)
    | .rawString s => .ok s
    | _ => .error (("[AI generation failed: Unexpected Hugging Face API response. Try again later or check your API key and model availability.]".data))

/-- `generatedText.replace(/^["~(.*)~"]/s, "$1")` of the OpenRouter path: no
`$` anchor, so when the text starts with a quote and contains a later quote,
the leading quote and the last quote occurrence are removed (the greedy `.*`
reaches the last quote). -/
def stripQuotesOR (s : Str) : Str :=
  match s with
  | [] => []
  | c :: rest =>
    if isQuote c && rest.any isQuote then (rest.reverse.eraseP isQuote).reverse
    else s

/-- The processing `generateWithOpenRouter` applies to a returned message
content: trim, strip quotes, trim, truncate against the raw `maxLength`. -/
def orProcess (content : Str) (maxLength : ℕ) : Str :=
  let t := jsTrim content
  let t := stripQuotesOR t
  let t := jsTrim t
  if maxLength < t.length then truncAtSpace t maxLength else t

/-- `generateWithOpenRouter`: `resp` is the `choices[0].message.content` of a
successful HTTP call (`none` when absent; an empty content is falsy in
JavaScript and also hits the unexpected-format throw). -/
def generateWithOpenRouter (maxLength : ℕ) (resp : Option Str) : Except Str Str :=
  match resp with
  | some content =>
    if content.isEmpty then
      .error (("OpenRouter API returned unexpected response format".data))
    else .ok (orProcess content maxLength)
  | none => .error (("OpenRouter API returned unexpected response format".data))

/-- One full Hugging Face attempt: network-level rejections (`hfCall` an
error) propagate as thrown errors, otherwise the response body is processed. -/
def hfRun (topic : Str) (t : ContentType) (maxLength : ℕ)
    (hfCall : Except Str HFData) (i : ℕ) : Except Str Str :=
  match hfCall with
  | .error e => .error e
  | .ok d => generateWithHuggingFace topic t maxLength d i

/-- One full OpenRouter attempt: HTTP/network failures (`orCall` an error)
propagate as thrown errors, otherwise the message content is processed. -/
def orRun (maxLength : ℕ) (orCall : Except Str (Option Str)) : Except Str Str :=
  match orCall with
  | .error e => .error e
  | .ok r => generateWithOpenRouter maxLength r

/-- The fixed placeholder returned when no provider key is configured. -/
def placeholderText : Str :=
  ("[AI generation requires API keys. Please configure Hugging Face or OpenRouter API key to use this feature.]".data)

set_option linter.unusedVariables false in
/-- `generateTextContent(topic, contentType, tone, maxLength)`: the generation
fallback chain.  `hfKey`/`orKey` model the truthiness of the configured API
keys, `hfCall`/`orCall` are the provider oracles, `i` the `Math.random`
template draw.  The `tone` argument only feeds the prompt, which the oracles
abstract. -/
def generateTextContent (hfKey orKey : Bool) (topic : Str) (t : ContentType)
    (tone : Str) (maxLength : ℕ) (hfCall : Except Str HFData)
    (orCall : Except Str (Option Str)) (i : ℕ) : Str :=
  if !hfKey && !orKey then placeholderText
  else if hfKey then
    match hfRun topic t maxLength hfCall i with
    | .ok s => s
    | .error _ =>
      if orKey then
        match orRun maxLength orCall with
        | .ok s => s
        | .error _ => generateFallbackContent topic t maxLength i
      else generateFallbackContent topic t maxLength i
  else
    match orRun maxLength orCall with
    | .ok s => s
    | .error _ => generateFallbackContent topic t maxLength i

/-- Sentiment labels of `TrendingTopic`. -/
inductive Sentiment where
  | positive
  | negative
  | neutral
deriving DecidableEq

/-- Category labels of `TrendingTopic`. -/
inductive Category where
  | crypto
  | trading
  | defi
  | nft
  | general
deriving DecidableEq

/-- The `TrendingTopic` record of `trending.ts`. -/
structure TrendingTopic where
  keyword : Str
  volume : ℚ
  sentiment : Sentiment
  category : Category
  relevanceScore : ℚ
deriving DecidableEq

/-- `categorizeKeyword`. -/
def categorizeKeyword (keyword : Str) : Category :=
  if keyword ∈ [("bitcoin".data), ("btc".data), ("ethereum".data), ("eth".data), ("altcoin".data)] then
    .crypto
  else if keyword ∈ [("defi".data), ("yield".data), ("staking".data), ("dao".data)] then
    .defi
  else if keyword ∈ [("nft".data), ("opensea".data), ("mint".data)] then
    .nft
  else if keyword ∈ [("trading".data), ("hodl".data), ("pump".data), ("dump".data)] then
    .trading
  else .general

/-- The trending topic `analyzeTwitterTrends` builds for a keyword seen
`count` times with average engagement `avgEngagement`:
`relevanceScore = min(100, count·10 + avgEngagement)`, positive sentiment
above engagement 10. -/
def timelineTopic (keyword : Str) (count : ℕ) (avgEngagement : ℚ) : TrendingTopic :=
  { keyword := keyword
    volume := count
    sentiment := if 10 < avgEngagement then .positive else .neutral
    category := categorizeKeyword keyword
    relevanceScore := min 100 ((count : ℚ) * 10 + avgEngagement) }

/-- One raw market-source item (`name`, 24h volume, 24h percent change). -/
structure MarketCoin where
  name : Str
  volume24h : ℚ
  pctChange24h : ℚ

/-- The trending topic `getCryptoTrends` builds from the market item at rank
`idx`: `relevanceScore = max(0, 100 - idx·5)`, sentiment from the sign of the
24h change. -/
def cryptoTrendOfCoin (idx : ℕ) (c : MarketCoin) : TrendingTopic :=
  { keyword := lowerStr c.name
    volume := c.volume24h
    sentiment := if 0 < c.pctChange24h then .positive else .negative
    category := .crypto
    relevanceScore := max 0 (100 - (idx : ℚ) * 5) }

/-- `getFallbackCryptoTrends`: the fixed 4-entry fallback trend list. -/
def getFallbackCryptoTrends : List TrendingTopic :=
  [ { keyword := ("bitcoin".data), volume := 1000000, sentiment := .positive,
      category := .crypto, relevanceScore := 95 },
    { keyword := ("ethereum".data), volume := 800000, sentiment := .positive,
      category := .crypto, relevanceScore := 90 },
    { keyword := ("defi".data), volume := 500000, sentiment := .neutral,
      category := .defi, relevanceScore := 85 },
    { keyword := ("trading".data), volume := 300000, sentiment := .positive,
      category := .trading, relevanceScore := 80 } ]

/-- `getCryptoTrends`: map the market response to topics; on a thrown market
error, substitute the fallback list. -/
def getCryptoTrends (market : Except Str (List MarketCoin)) : List TrendingTopic :=
  match market with
  | .ok coins => coins.enum.map (fun p => cryptoTrendOfCoin p.1 p.2)
  | .error _ => getFallbackCryptoTrends

/-- `combined.set(trend.keyword, trend)`: JavaScript `Map.set` on an
insertion-ordered association list — overwrite in place when the key exists,
else append. -/
def mapSet (m : List TrendingTopic) (t : TrendingTopic) : List TrendingTopic :=
  if m.any (fun x => x.keyword == t.keyword) then
    m.map (fun x => if x.keyword == t.keyword then t else x)
  else m ++ [t]

/-- The in-place boost of an existing entry:
`existing.relevanceScore += trend.relevanceScore * 0.5` and
`existing.volume += trend.volume`. -/
def boostTopic (x t : TrendingTopic) : TrendingTopic :=
  { x with relevanceScore := x.relevanceScore + t.relevanceScore * (1 / 2),
           volume := x.volume + t.volume }

/-- The timeline-merge step of `combineTrends`: boost an existing entry, else
insert the new one. -/
def boostOrInsert (m : List TrendingTopic) (t : TrendingTopic) : List TrendingTopic :=
  if m.any (fun x => x.keyword == t.keyword) then
    m.map (fun x => if x.keyword == t.keyword then boostTopic x t else x)
  else m ++ [t]

/-- JavaScript `Map.get`. -/
def findKw (m : List TrendingTopic) (k : Str) : Option TrendingTopic :=
  m.find? (fun x => x.keyword == k)

/-- The merged map of `combineTrends` before ranking: all market trends set,
then all timeline trends boosted or inserted. -/
def mergedMap (cryptoTrends twitterTrends : List TrendingTopic) : List TrendingTopic :=
  twitterTrends.foldl boostOrInsert (cryptoTrends.foldl mapSet [])

/-- The descending-score comparator of the final `sort`. -/
def scoreGe (a b : TrendingTopic) : Prop := b.relevanceScore ≤ a.relevanceScore

instance : DecidableRel scoreGe :=
  fun a b => inferInstanceAs (Decidable (b.relevanceScore ≤ a.relevanceScore))

instance : IsTotal TrendingTopic scoreGe := ⟨fun a b => le_total b.relevanceScore a.relevanceScore⟩

instance : IsTrans TrendingTopic scoreGe := ⟨fun _ _ _ h1 h2 => le_trans h2 h1⟩

/-- `combineTrends`: merge, sort descending by relevance score, truncate to
the top 20. -/
def combineTrends (cryptoTrends twitterTrends : List TrendingTopic) : List TrendingTopic :=
  ((mergedMap cryptoTrends twitterTrends).insertionSort scoreGe).take 20

/-- The counter trace a handler produces: the final `replyCount`, the counter
value observed at the moment of each attempted reply/engagement action, and
the counter value after each processed item. -/
structure BudgetTrace where
  final : ℕ
  attempts : List ℕ
  observations : List ℕ
deriving DecidableEq

/-- The `for (const mention of mentions)` loop of `handleMentions`: break once
`replyCount >= maxRepliesPerHour`, otherwise attempt a reply; the counter is
incremented exactly when `replyToTweet` succeeded (`this.replyCount++` runs
after the awaited platform call; a thrown reply error skips it). -/
def runMentionLoop (k : ℕ) : List Bool → ℕ → BudgetTrace
  | [], c => ⟨c, [], []⟩
  | o :: os, c =>
    if k ≤ c then ⟨c, [], []⟩
    else
      let c' := if o then c + 1 else c
      let r := runMentionLoop k os c'
      ⟨r.final, c :: r.attempts, c' :: r.observations⟩

/-- `handleMentions`: the early `replyCount >= maxRepliesPerHour` return,
then the mention loop.  Each `Bool` is the success of one generate-and-reply
attempt. -/
def handleMentions (k : ℕ) (outcomes : List Bool) (c : ℕ) : BudgetTrace :=
  if k ≤ c then ⟨c, [], []⟩ else runMentionLoop k outcomes c

/-- The `for (const tweet of timeline)` loop of `handleTimelineEngagement`:
an item is acted on only when `shouldEngage` holds and
`replyCount < maxRepliesPerHour`; the counter is incremented exactly when the
reply posted successfully.  Items are `(shouldEngage, replySucceeded)`. -/
def runTimelineLoop (k : ℕ) : List (Bool × Bool) → ℕ → BudgetTrace
  | [], c => ⟨c, [], []⟩
  | (eng, suc) :: ts, c =>
    if eng && decide (c < k) then
      let c' := if suc then c + 1 else c
      let r := runTimelineLoop k ts c'
      ⟨r.final, c :: r.attempts, c' :: r.observations⟩
    else runTimelineLoop k ts c

/-- `handleTimelineEngagement` (the budget-relevant part: the scan loop). -/
def handleTimelineEngagement (k : ℕ) (items : List (Bool × Bool)) (c : ℕ) : BudgetTrace :=
  runTimelineLoop k items c

/-- One governor-gated handler call of a cycle. -/
inductive EngageCall where
  | mentions (outcomes : List Bool)
  | timeline (items : List (Bool × Bool))

/-- A sequence of mention-handling and timeline-engagement calls within one
hourly window (no counter reset in between), threading `replyCount`. -/
def runCalls (k : ℕ) : List EngageCall → ℕ → BudgetTrace
  | [], c => ⟨c, [], []⟩
  | call :: cs, c =>
    let r := match call with
      | .mentions outcomes => handleMentions k outcomes c
      | .timeline items => handleTimelineEngagement k items c
    let r2 := runCalls k cs r.final
    ⟨r2.final, r.attempts ++ r2.attempts, r.observations ++ r2.observations⟩

/-- An `AutonomousActivity` record (only the fields the claims are about: the
insertion timestamp). -/
structure ActivityRecord where
  ts : ℕ
deriving DecidableEq

/-- `addActivity`: push, then `slice(-100)` when more than 100 records. -/
def addActivity (acts : List ActivityRecord) (a : ActivityRecord) : List ActivityRecord :=
  let l := acts ++ [a]
  if 100 < l.length then l.drop (l.length - 100) else l

/-- The descending-timestamp comparator of `getRecentActivities`. -/
def tsGe (a b : ActivityRecord) : Prop := b.ts ≤ a.ts

instance : DecidableRel tsGe := fun a b => inferInstanceAs (Decidable (b.ts ≤ a.ts))

instance : IsTotal ActivityRecord tsGe := ⟨fun a b => le_total b.ts a.ts⟩

instance : IsTrans ActivityRecord tsGe := ⟨fun _ _ _ h1 h2 => le_trans h2 h1⟩

/-- `getRecentActivities(limit)`: `this.activities.sort(...)` sorts the
backing array **in place** (JavaScript `Array.prototype.sort`), then `slice`
takes the first `limit` records.  The first component is the returned list,
the second the buffer as it is left behind. -/
def getRecentActivities (acts : List ActivityRecord) (limit : ℕ) :
    List ActivityRecord × List ActivityRecord :=
  let sorted := acts.insertionSort tsGe
  (sorted.take limit, sorted)

/-- Engine state: the fields of `AutonomousService` relevant to the claims.
`timerArmed` models `intervalId !== null`; `cycles` counts executed cycle
bodies (each executed cycle appends `ActivityRecord`s). -/
structure EngineState where
  isRunning : Bool
  timerArmed : Bool
  replyCount : ℕ
  lastResetTime : ℕ
  cycles : ℕ
  activities : List ActivityRecord
deriving DecidableEq

/-- `stop()`: a no-op unless running; otherwise clear `isRunning` and disarm
the timer (`clearInterval` plus `intervalId = null`). -/
def stopOp (s : EngineState) : EngineState :=
  if s.isRunning = false then s
  else { s with isRunning := false, timerArmed := false }

/-- `start(userId, config)` as an atomic step sequence.  The single `await`
inside `start` is the immediate first cycle; `stopDuringFirstCycle` selects
the interleaving in which `stop()` runs at that await point.  After the await,
the remainder of `start` unconditionally assigns `this.intervalId =
setInterval(...)` — it never re-checks `isRunning`. -/
def startRun (s : EngineState) (enabled : Bool) (stopDuringFirstCycle : Bool) : EngineState :=
  if s.isRunning then s
  else if enabled = false then s
  else
    let s1 := { s with isRunning := true }
    let s2 := { s1 with cycles := s1.cycles + 1 }
    let s3 := if stopDuringFirstCycle then stopOp s2 else s2
    { s3 with timerArmed := true }

/-- One firing of the recurring interval: the callback runs a cycle whenever
the interval is still armed — `runAutonomousCycle` never consults
`isRunning`. -/
def tick (s : EngineState) : EngineState :=
  if s.timerArmed then { s with cycles := s.cycles + 1 } else s

/-- The record `getStatus()` returns. -/
structure EngineStatus where
  isRunning : Bool
  replyCount : ℕ
  maxRepliesPerHour : ℕ
  lastResetTime : ℕ
  recentActivities : List ActivityRecord
deriving DecidableEq

/-- `getStatus()`: the status surface; `maxRepliesPerHour` is the literal
`10` of the source (the engine never stores the config's value), and the
recent activities are `getRecentActivities(5)`. -/
def getStatus (s : EngineState) : EngineStatus :=
  { isRunning := s.isRunning
    replyCount := s.replyCount
    maxRepliesPerHour := 10
    lastResetTime := s.lastResetTime
    recentActivities := (getRecentActivities s.activities 5).1 }


lemma length_jsTakeI (s : Str) (n : Int) : (jsTakeI s n).length ≤ n.toNat := by
  simp [jsTakeI]

lemma length_jsTrim (s : Str) : (jsTrim s).length ≤ s.length := by
  unfold jsTrim
  calc ((s.dropWhile isJsWs).reverse.dropWhile isJsWs).reverse.length
      = ((s.dropWhile isJsWs).reverse.dropWhile isJsWs).length := List.length_reverse _
    _ ≤ (s.dropWhile isJsWs).reverse.length := (List.dropWhile_sublist _).length_le
    _ = (s.dropWhile isJsWs).length := List.length_reverse _
    _ ≤ s.length := (List.dropWhile_sublist _).length_le

lemma lastSpaceIdx_le (s : Str) (pos : Int) : lastSpaceIdx s pos ≤ (pos.toNat : Int) := by
  unfold lastSpaceIdx
  cases hf : (List.range (min (pos.toNat + 1) s.length)).reverse.find?
      (fun i => s.getD i 'x' == ' ') with
  | none => simp
  | some i =>
    have hmem := List.mem_of_find?_eq_some hf
    rw [List.mem_reverse, List.mem_range] at hmem
    simp only
    omega

lemma length_truncAtSpace (s : Str) (cap : ℕ) (h : 3 ≤ cap) :
    (truncAtSpace s cap).length ≤ cap := by
  have hdots : (("...".data) : Str).length = 3 := by decide
  have key : ∀ cp : Int, cp ≤ (cap : Int) - 3 →
      (jsTrim (jsTakeI s cp) ++ ("...".data)).length ≤ cap := by
    intro cp hcp
    rw [List.length_append, hdots]
    have h1 := length_jsTrim (jsTakeI s cp)
    have h2 := length_jsTakeI s cp
    omega
  have hls : lastSpaceIdx s ((cap : Int) - 3) ≤ (cap : Int) - 3 := by
    have h1 := lastSpaceIdx_le s ((cap : Int) - 3)
    omega
  simp only [truncAtSpace]
  split
  case isTrue hgt => exact key _ hls
  case isFalse hgt => exact key _ le_rfl

lemma length_capStep (t : Str) (m : ℕ) :
    (if m < t.length then jsTakeI t (m : Int) else t).length ≤ m := by
  split
  case isTrue hlt =>
    have := length_jsTakeI t (m : Int)
    simpa using this
  case isFalse hle => omega

lemma length_hfTruncate (s : Str) (eff maxLength : ℕ) :
    (hfTruncate s eff maxLength).length ≤ maxLength := by
  simp only [hfTruncate]
  exact length_capStep _ _

lemma length_hfProcessText (topic : Str) (t : ContentType) (maxLength : ℕ) (s : Str) (i : ℕ) :
    (hfProcessText topic t maxLength s i).length ≤ maxLength :=
  length_hfTruncate _ _ _

lemma length_fallback (topic : Str) (t : ContentType) (maxLength i : ℕ) (h : 3 ≤ maxLength) :
    (generateFallbackContent topic t maxLength i).length ≤ maxLength := by
  simp only [generateFallbackContent]
  split
  case isTrue hgt =>
    rw [List.length_append]
    have hdots : (("...".data) : Str).length = 3 := by decide
    rw [hdots]
    have h1 := length_jsTakeI ((templatesFor t topic).getD (i % (templatesFor t topic).length) [])
      ((maxLength : Int) - 3)
    omega
  case isFalse hle => omega

lemma length_orProcess (content : Str) (maxLength : ℕ) (h : 3 ≤ maxLength) :
    (orProcess content maxLength).length ≤ maxLength := by
  simp only [orProcess]
  split
  case isTrue => exact length_truncAtSpace _ _ h
  case isFalse hle => omega

lemma append_ne_nil_right (a b : Str) (h : b ≠ []) : a ++ b ≠ [] := by
  intro hc
  exact h (List.append_eq_nil.mp hc).2

lemma append_ne_nil_left (a b : Str) (h : a ≠ []) : a ++ b ≠ [] := by
  intro hc
  exact h (List.append_eq_nil.mp hc).1

lemma templatesFor_ne_nil (t : ContentType) (topic : Str) :
    ∀ x ∈ templatesFor t topic, x ≠ [] := by
  intro x hx
  cases t <;>
    simp only [templatesFor, tweetTemplates, threadTemplates, replyTemplates,
      memeTemplates] at hx <;>
    fin_cases hx <;>
    first
      | exact append_ne_nil_left _ _ (by decide)
      | exact append_ne_nil_right _ _ (by decide)

lemma templatesFor_length_pos (t : ContentType) (topic : Str) :
    0 < (templatesFor t topic).length := by
  cases t <;> simp [templatesFor, tweetTemplates, threadTemplates, replyTemplates, memeTemplates]

lemma fallback_ne_nil (topic : Str) (t : ContentType) (maxLength i : ℕ) :
    generateFallbackContent topic t maxLength i ≠ [] := by
  simp only [generateFallbackContent]
  split
  case isTrue h => exact append_ne_nil_right _ _ (by decide)
  case isFalse h =>
    have hlt : i % (templatesFor t topic).length < (templatesFor t topic).length :=
      Nat.mod_lt _ (templatesFor_length_pos t topic)
    apply templatesFor_ne_nil t topic
    rw [List.getD_eq_getElem (templatesFor t topic) [] hlt]
    exact List.getElem_mem hlt

/-- **C2.** `generateTextContent` never raises and always returns a string: it
is a total function into `Str` for every topic, content type, tone,
`maxLength` and provider behaviour.  With no provider key configured it
returns the fixed instructional placeholder; when a configured provider
throws (network rejection, HTTP error, or a response carrying an `error`
field / unusable format), the chain degrades to the template fallback instead
of propagating the exception: the equations below cover every failing
configuration (Hugging Face only, Hugging Face then OpenRouter, OpenRouter
only). -/
theorem generateTextContent_never_raises (topic : Str) (t : ContentType) (tone : Str)
    (maxLength i : ℕ) (e₁ e₂ : Str) (hfCall : Except Str HFData)
    (orCall : Except Str (Option Str)) :
    generateTextContent false false topic t tone maxLength hfCall orCall i = placeholderText
    ∧ generateTextContent true false topic t tone maxLength (.error e₁) orCall i =
        generateFallbackContent topic t maxLength i
    ∧ generateTextContent true true topic t tone maxLength (.error e₁) (.error e₂) i =
        generateFallbackContent topic t maxLength i
    ∧ generateTextContent true false topic t tone maxLength (.ok (.objError e₁)) orCall i =
        generateFallbackContent topic t maxLength i
    ∧ generateTextContent false true topic t tone maxLength hfCall (.error e₂) i =
        generateFallbackContent topic t maxLength i
    ∧ generateTextContent false true topic t tone maxLength hfCall (.ok none) i =
        generateFallbackContent topic t maxLength i :=
  ⟨rfl, rfl, rfl, rfl, rfl, rfl⟩

set_option maxRecDepth 4000 in
/-- **C3 counterexample.** The claim "the string returned by
`generateTextContent` has length at most the requested `maxLength` for every
provider output" is false: a Hugging Face response whose JSON body is a bare
string is returned verbatim (the `typeof data === "string"` branch), with no
truncation — here a 300-character body against `maxLength = 280`. -/
theorem generateTextContent_length_cex :
    ¬ (generateTextContent true false ("Bitcoin".data) .tweet ("tone".data) 280
        (.ok (.rawString (List.replicate 300 'a'))) (.error []) 0).length ≤ 280 := by
  decide

lemma generateWithHuggingFace_ok_length (topic : Str) (t : ContentType) (maxLength i : ℕ)
    (d : HFData) (s : Str) (hok : generateWithHuggingFace topic t maxLength d i = .ok s)
    (hraw : ∀ r, d ≠ .rawString r) : s.length ≤ maxLength := by
  cases d with
  | rawString r => exact absurd rfl (hraw r)
  | arrText r =>
    simp only [generateWithHuggingFace, hfExtract] at hok
    cases hre : List.isEmpty r with
    | true => simp [hre] at hok
    | false =>
      simp only [hre, Bool.false_eq_true, if_false] at hok
      cases hp : List.isEmpty (hfProcessText topic t maxLength r i) with
      | true => simp [hp] at hok
      | false =>
        simp only [hp, if_true] at hok
        obtain rfl := Except.ok.inj hok
        exact length_hfProcessText topic t maxLength r i
  | objText r =>
    simp only [generateWithHuggingFace, hfExtract] at hok
    cases hre : List.isEmpty r with
    | true => simp [hre] at hok
    | false =>
      simp only [hre, Bool.false_eq_true, if_false] at hok
      cases hp : List.isEmpty (hfProcessText topic t maxLength r i) with
      | true => simp [hp] at hok
      | false =>
        simp only [hp, if_true] at hok
        obtain rfl := Except.ok.inj hok
        exact length_hfProcessText topic t maxLength r i
  | objError e => exact absurd hok (by simp [generateWithHuggingFace, hfExtract])
  | objMessage m => exact absurd hok (by simp [generateWithHuggingFace, hfExtract])
  | nullData => exact absurd hok (by simp [generateWithHuggingFace, hfExtract])

lemma orRun_ok_length (maxLength : ℕ) (orCall : Except Str (Option Str)) (s : Str)
    (hml : 3 ≤ maxLength) (hs : orRun maxLength orCall = .ok s) : s.length ≤ maxLength := by
  cases orCall with
  | error e => simp [orRun] at hs
  | ok r =>
    cases r with
    | none => simp [orRun, generateWithOpenRouter] at hs
    | some content =>
      simp only [orRun, generateWithOpenRouter] at hs
      split at hs
      case isTrue => exact absurd hs (by simp)
      case isFalse =>
        obtain rfl := Except.ok.inj hs
        exact length_orProcess content maxLength hml

/-- **C3 amended.** Provided some provider key is configured, the requested
`maxLength` is at least 3 (so the ellipsis marker itself fits), and the
Hugging Face response body is not a bare JSON string (which
`generateWithHuggingFace` returns verbatim), the string returned by
`generateTextContent` has length at most the requested `maxLength`, for every
provider output — including empty, instruction-echoing and oversized
responses. -/
theorem generateTextContent_length_amended (hfKey orKey : Bool) (topic : Str)
    (t : ContentType) (tone : Str) (maxLength i : ℕ) (hfCall : Except Str HFData)
    (orCall : Except Str (Option Str)) (hkeys : hfKey = true ∨ orKey = true)
    (hml : 3 ≤ maxLength) (hraw : ∀ r, hfCall ≠ .ok (.rawString r)) :
    (generateTextContent hfKey orKey topic t tone maxLength hfCall orCall i).length
      ≤ maxLength := by
  have hfb := length_fallback topic t maxLength i hml
  cases hfKey with
  | false =>
    cases orKey with
    | false => simp at hkeys
    | true =>
      simp only [generateTextContent, Bool.not_false, Bool.not_true, Bool.and_false,
        Bool.false_and, if_false]
      cases ho : orRun maxLength orCall with
      | ok s => simpa [ho] using orRun_ok_length maxLength orCall s hml ho
      | error e => simpa [ho] using hfb
  | true =>
    simp only [generateTextContent, Bool.not_true, Bool.false_and, if_false, if_true]
    cases hh : hfRun topic t maxLength hfCall i with
    | ok s =>
      have : s.length ≤ maxLength := by
        cases hfCall with
        | error e => simp [hfRun] at hh
        | ok d =>
          exact generateWithHuggingFace_ok_length topic t maxLength i d s
            (by simpa [hfRun] using hh) (fun r hdr => hraw r (by rw [hdr]))
      simpa [hh] using this
    | error e =>
      cases orKey with
      | false => simpa [hh] using hfb
      | true =>
        cases ho : orRun maxLength orCall with
        | ok s => simpa [hh, ho] using orRun_ok_length maxLength orCall s hml ho
        | error e2 => simpa [hh, ho] using hfb

/-- Witness for the C3 amended theorem at a concrete input. -/
theorem generateTextContent_length_amended_witness :
    (3 : ℕ) ≤ 280 ∧
      (generateTextContent true false ("Bitcoin".data) .tweet ("tone".data) 280
        (.ok (.objText ("hi".data))) (.error []) 0).length ≤ 280 :=
  ⟨by norm_num,
    generateTextContent_length_amended true false ("Bitcoin".data) .tweet ("tone".data) 280 0
      (.ok (.objText ("hi".data))) (.error []) (Or.inl rfl) (by norm_num) (by simp)⟩

lemma hfShouldFallback_ne_nil (s : Str) (eff : ℕ) (h : hfShouldFallback s eff = true) :
    s ≠ [] := by
  intro hs
  subst hs
  have h1 : hfLeak ([] : Str) = false := by decide
  simp [hfShouldFallback, h1] at h

lemma truncAtSpace_ne_nil (s : Str) (cap : ℕ) : truncAtSpace s cap ≠ [] := by
  simp only [truncAtSpace]
  exact append_ne_nil_right _ _ (by decide)

lemma isEmpty_false_of_ne_nil (l : Str) (h : l ≠ []) : l.isEmpty = false := by
  cases l with
  | nil => exact absurd rfl h
  | cons c cs => rfl

lemma capStep_ne_nil (t : Str) (m : ℕ) (ht : t ≠ []) (hm : 1 ≤ m) :
    (if m < t.length then jsTakeI t (m : Int) else t) ≠ [] := by
  split
  case isTrue hlt =>
    apply List.ne_nil_of_length_pos
    simp only [jsTakeI, List.length_take, Int.toNat_natCast]
    have := List.length_pos.mpr ht
    omega
  case isFalse => exact ht

lemma hfTruncate_ne_nil (s : Str) (eff maxLength : ℕ) (hs : s ≠ [])
    (hml : 1 ≤ maxLength) : hfTruncate s eff maxLength ≠ [] := by
  simp only [hfTruncate]
  by_cases h : eff < s.length
  · simp only [if_pos h]
    exact capStep_ne_nil _ _ (truncAtSpace_ne_nil s eff) hml
  · simp only [if_neg h]
    exact capStep_ne_nil _ _ hs hml

lemma hf_fallback_branch (topic : Str) (t : ContentType) (maxLength : ℕ) (s : Str) (i : ℕ)
    (h1 : 1 ≤ maxLength) (hsf : hfShouldFallback s (min maxLength 280) = true) :
    generateWithHuggingFace topic t maxLength (.arrText s) i =
      .ok (hfTruncate (generateFallbackContent topic t (min maxLength 280) i)
            (min maxLength 280) maxLength) := by
  have hs := hfShouldFallback_ne_nil s (min maxLength 280) hsf
  have hse := isEmpty_false_of_ne_nil s hs
  have hproc : hfProcessText topic t maxLength s i =
      hfTruncate (generateFallbackContent topic t (min maxLength 280) i)
        (min maxLength 280) maxLength := by
    simp only [hfProcessText, hsf, if_true]
  have hne : hfProcessText topic t maxLength s i ≠ [] := by
    rw [hproc]
    exact hfTruncate_ne_nil _ _ _ (fallback_ne_nil topic t (min maxLength 280) i) h1
  simp only [generateWithHuggingFace, hfExtract, hse, Bool.false_eq_true, if_false, hproc,
    isEmpty_false_of_ne_nil _ (hproc ▸ hne), if_true]

/-- **C8.** If Provider A (Hugging Face) returns a `generated_text` containing
any instruction-leakage phrase (case-insensitive substring) or longer than
1.2 times the effective cap `min(maxLength, 280)` — the condition
`hfShouldFallback` — the provider text is discarded and the result is the
template fallback interpolating the topic (passed through the length
enforcement); in particular, for provider text "Generate a tweet about
Bitcoin" with topic "Bitcoin", type tweet and `maxLength` 280, the output
contains "Bitcoin", has length at most 280, and does not contain the word
"Generate", whichever template the random draw picks. -/
theorem hf_instruction_echo_uses_template :
    (∀ (topic : Str) (t : ContentType) (maxLength : ℕ) (s : Str) (i : ℕ),
        1 ≤ maxLength → hfShouldFallback s (min maxLength 280) = true →
        generateWithHuggingFace topic t maxLength (.arrText s) i =
          .ok (hfTruncate (generateFallbackContent topic t (min maxLength 280) i)
                (min maxLength 280) maxLength))
    ∧ (∀ i : ℕ,
        containsSub
          (generateTextContent true false ("Bitcoin".data) .tweet ("tone".data) 280
            (.ok (.arrText ("Generate a tweet about Bitcoin".data))) (.error []) i)
          ("Bitcoin".data) = true
        ∧ (generateTextContent true false ("Bitcoin".data) .tweet ("tone".data) 280
            (.ok (.arrText ("Generate a tweet about Bitcoin".data))) (.error []) i).length ≤ 280
        ∧ containsSub
            (generateTextContent true false ("Bitcoin".data) .tweet ("tone".data) 280
              (.ok (.arrText ("Generate a tweet about Bitcoin".data))) (.error []) i)
            ("Generate".data) = false) := by
  constructor
  · exact fun topic t maxLength s i h1 hsf => hf_fallback_branch topic t maxLength s i h1 hsf
  · intro i
    have heq := hf_fallback_branch ("Bitcoin".data) .tweet 280
      ("Generate a tweet about Bitcoin".data) i (by norm_num) (by decide)
    have hout : generateTextContent true false ("Bitcoin".data) .tweet ("tone".data) 280
        (.ok (.arrText ("Generate a tweet about Bitcoin".data))) (.error []) i =
        hfTruncate (generateFallbackContent ("Bitcoin".data) .tweet 280 i) 280 280 := by
      simp [generateTextContent, hfRun, heq]
    rw [hout]
    simp only [generateFallbackContent, templatesFor]
    have h5 : (tweetTemplates ("Bitcoin".data)).length = 5 := by decide
    rw [h5]
    obtain ⟨r, hrlt, hri⟩ : ∃ r, r < 5 ∧ i % 5 = r := ⟨i % 5, Nat.mod_lt _ (by norm_num), rfl⟩
    rw [hri]
    interval_cases r <;> exact (by decide)

/-- Witness for C8 at the concrete instruction-echo input. -/
theorem hf_instruction_echo_uses_template_witness :
    (1 : ℕ) ≤ 280 ∧
      hfShouldFallback ("Generate a tweet about Bitcoin".data) (min 280 280) = true ∧
      generateWithHuggingFace ("Bitcoin".data) .tweet 280
        (.arrText ("Generate a tweet about Bitcoin".data)) 0 =
        .ok (hfTruncate (generateFallbackContent ("Bitcoin".data) .tweet (min 280 280) 0)
              (min 280 280) 280) :=
  ⟨by norm_num, by decide,
    hf_instruction_echo_uses_template.1 ("Bitcoin".data) .tweet 280
      ("Generate a tweet about Bitcoin".data) 0 (by norm_num) (by decide)⟩

lemma runMentionLoop_invariant (k : ℕ) (outs : List Bool) (c : ℕ) (h : c ≤ k) :
    (runMentionLoop k outs c).final ≤ k
    ∧ (∀ a ∈ (runMentionLoop k outs c).attempts, a < k)
    ∧ (∀ o ∈ (runMentionLoop k outs c).observations, o ≤ k) := by
  induction outs generalizing c with
  | nil =>
    refine ⟨h, ?_, ?_⟩ <;> simp [runMentionLoop]
  | cons o os ih =>
    simp only [runMentionLoop]
    split
    case isTrue hk => refine ⟨h, ?_, ?_⟩ <;> simp
    case isFalse hk =>
      have hck : c < k := by omega
      have hc' : (if o then c + 1 else c) ≤ k := by split <;> omega
      obtain ⟨h1, h2, h3⟩ := ih (if o then c + 1 else c) hc'
      refine ⟨h1, ?_, ?_⟩
      · intro a ha
        rcases List.mem_cons.mp ha with rfl | ha'
        · exact hck
        · exact h2 a ha'
      · intro ob hob
        rcases List.mem_cons.mp hob with rfl | hob'
        · exact hc'
        · exact h3 ob hob'

lemma handleMentions_invariant (k : ℕ) (outs : List Bool) (c : ℕ) (h : c ≤ k) :
    (handleMentions k outs c).final ≤ k
    ∧ (∀ a ∈ (handleMentions k outs c).attempts, a < k)
    ∧ (∀ o ∈ (handleMentions k outs c).observations, o ≤ k) := by
  simp only [handleMentions]
  split
  case isTrue hk => refine ⟨h, ?_, ?_⟩ <;> simp
  case isFalse hk => exact runMentionLoop_invariant k outs c h

lemma runTimelineLoop_invariant (k : ℕ) (items : List (Bool × Bool)) (c : ℕ) (h : c ≤ k) :
    (runTimelineLoop k items c).final ≤ k
    ∧ (∀ a ∈ (runTimelineLoop k items c).attempts, a < k)
    ∧ (∀ o ∈ (runTimelineLoop k items c).observations, o ≤ k) := by
  induction items generalizing c with
  | nil => refine ⟨h, ?_, ?_⟩ <;> simp [runTimelineLoop]
  | cons it ts ih =>
    obtain ⟨eng, suc⟩ := it
    simp only [runTimelineLoop]
    split
    case isTrue hk =>
      have hck : c < k := of_decide_eq_true (Bool.and_elim_right hk)
      have hc' : (if suc then c + 1 else c) ≤ k := by split <;> omega
      obtain ⟨h1, h2, h3⟩ := ih (if suc then c + 1 else c) hc'
      refine ⟨h1, ?_, ?_⟩
      · intro a ha
        rcases List.mem_cons.mp ha with rfl | ha'
        · exact hck
        · exact h2 a ha'
      · intro ob hob
        rcases List.mem_cons.mp hob with rfl | hob'
        · exact hc'
        · exact h3 ob hob'
    case isFalse hk => exact ih c h

/-- **C1.** For every configuration with `maxRepliesPerHour = k` and every
sequence of mention-handling and timeline-engagement calls within one hourly
window (no reset in between), starting from a counter within budget: the
final reply counter never exceeds `k`, every reply or engagement action is
attempted only while the counter is strictly below `k` (mention processing
breaks out early once it reaches `k`), and after each increment the counter
is at most `k` at every observation point. -/
theorem replyBudget_never_exceeds_cap (k : ℕ) (calls : List EngageCall) (c₀ : ℕ)
    (h : c₀ ≤ k) :
    (runCalls k calls c₀).final ≤ k
    ∧ (∀ a ∈ (runCalls k calls c₀).attempts, a < k)
    ∧ (∀ o ∈ (runCalls k calls c₀).observations, o ≤ k) := by
  induction calls generalizing c₀ with
  | nil => refine ⟨h, ?_, ?_⟩ <;> simp [runCalls]
  | cons call cs ih =>
    have hstep : ∀ r : BudgetTrace,
        (r.final ≤ k ∧ (∀ a ∈ r.attempts, a < k) ∧ (∀ o ∈ r.observations, o ≤ k)) →
        (runCalls k (call :: cs) c₀ =
          ⟨(runCalls k cs r.final).final, r.attempts ++ (runCalls k cs r.final).attempts,
            r.observations ++ (runCalls k cs r.final).observations⟩) →
        (runCalls k (call :: cs) c₀).final ≤ k
        ∧ (∀ a ∈ (runCalls k (call :: cs) c₀).attempts, a < k)
        ∧ (∀ o ∈ (runCalls k (call :: cs) c₀).observations, o ≤ k) := by
      intro r ⟨hr1, hr2, hr3⟩ heq
      obtain ⟨g1, g2, g3⟩ := ih r.final hr1
      rw [heq]
      refine ⟨g1, ?_, ?_⟩
      · intro a ha
        rcases List.mem_append.mp ha with ha' | ha'
        · exact hr2 a ha'
        · exact g2 a ha'
      · intro ob hob
        rcases List.mem_append.mp hob with hob' | hob'
        · exact hr3 ob hob'
        · exact g3 ob hob'
    cases call with
    | mentions outs =>
      exact hstep (handleMentions k outs c₀) (handleMentions_invariant k outs c₀ h) rfl
    | timeline items =>
      exact hstep (handleTimelineEngagement k items c₀)
        (runTimelineLoop_invariant k items c₀ h) rfl

/-- Witness for C1 at a concrete call sequence with `k = 1`. -/
theorem replyBudget_never_exceeds_cap_witness :
    (0 : ℕ) ≤ 1
    ∧ ((runCalls 1 [.mentions [true, true], .timeline [(true, true), (true, false)]] 0).final ≤ 1
      ∧ (∀ a ∈ (runCalls 1 [.mentions [true, true],
            .timeline [(true, true), (true, false)]] 0).attempts, a < 1)
      ∧ (∀ o ∈ (runCalls 1 [.mentions [true, true],
            .timeline [(true, true), (true, false)]] 0).observations, o ≤ 1)) :=
  ⟨by norm_num,
    replyBudget_never_exceeds_cap 1 [.mentions [true, true],
      .timeline [(true, true), (true, false)]] 0 (by norm_num)⟩

/-- **C4 counterexample.** The claim says the reply counter is incremented
before the platform call, so a failed post still consumes budget; in the code
`this.replyCount++` runs only after `replyToTweet` resolves, so a failed
reply (outcome `false`) leaves the counter unchanged — here at 0, not 1 — in
both mention handling and timeline engagement. -/
theorem budget_increment_on_failure_cex :
    (handleMentions 5 [false] 0).final = 0
    ∧ ¬ (handleMentions 5 [false] 0).final = 1
    ∧ (handleTimelineEngagement 5 [(true, false)] 0).final = 0
    ∧ ¬ (handleTimelineEngagement 5 [(true, false)] 0).final = 1 := by
  decide

/-- **C4 amended.** The reply budget counter is incremented only after the
platform reply call succeeds: with budget remaining, a failed reply attempt
leaves the counter unchanged and a successful one increments it by one, in
both mention handling and timeline engagement (failed external calls do not
consume budget). -/
theorem budget_increment_after_success (k c : ℕ) (h : c < k) :
    (handleMentions k [false] c).final = c
    ∧ (handleMentions k [true] c).final = c + 1
    ∧ (handleTimelineEngagement k [(true, false)] c).final = c
    ∧ (handleTimelineEngagement k [(true, true)] c).final = c + 1 := by
  have hk : ¬ k ≤ c := by omega
  refine ⟨?_, ?_, ?_, ?_⟩ <;>
    simp [handleMentions, handleTimelineEngagement, runMentionLoop, runTimelineLoop, hk, h]

/-- Witness for the C4 amended theorem at `k = 5`, `c = 0`. -/
theorem budget_increment_after_success_witness :
    (0 : ℕ) < 5
    ∧ ((handleMentions 5 [false] 0).final = 0
      ∧ (handleMentions 5 [true] 0).final = 0 + 1
      ∧ (handleTimelineEngagement 5 [(true, false)] 0).final = 0
      ∧ (handleTimelineEngagement 5 [(true, true)] 0).final = 0 + 1) :=
  ⟨by norm_num, budget_increment_after_success 5 0 (by norm_num)⟩

/-- **C5 (code bug).** `stop()` called while the immediate first cycle run by
`start` is in flight does not prevent the remainder of `start` from arming the
recurring timer: the resulting state is not running yet has the timer armed,
every subsequent interval firing still runs a cycle (producing new
`ActivityRecord`s), and a repeated `stop()` is a no-op because `isRunning` is
already false — so the engine keeps cycling after `stop()`, contradicting the
claim that no new cycle runs.  In contrast, `stop()` after `start` has
finished does disarm the timer and later interval firings run nothing. -/
theorem stop_during_first_cycle_leaves_timer_armed :
    (startRun ⟨false, false, 0, 0, 0, []⟩ true true).isRunning = false
    ∧ (startRun ⟨false, false, 0, 0, 0, []⟩ true true).timerArmed = true
    ∧ (tick (startRun ⟨false, false, 0, 0, 0, []⟩ true true)).cycles =
        (startRun ⟨false, false, 0, 0, 0, []⟩ true true).cycles + 1
    ∧ stopOp (startRun ⟨false, false, 0, 0, 0, []⟩ true true) =
        startRun ⟨false, false, 0, 0, 0, []⟩ true true
    ∧ (stopOp (startRun ⟨false, false, 0, 0, 0, []⟩ true false)).timerArmed = false
    ∧ (tick (stopOp (startRun ⟨false, false, 0, 0, 0, []⟩ true false))).cycles =
        (stopOp (startRun ⟨false, false, 0, 0, 0, []⟩ true false)).cycles := by
  decide

/-- **C9 (code bug).** The activity history keeps at most 100 records and,
absent reads, evicts the oldest first (last two conjuncts); but
`getRecentActivities` sorts the backing array in place, so a read reorders
the buffer (first conjunct), and an `addActivity` following a read evicts the
newest prior record (timestamp 99) while keeping the oldest (timestamp 0) —
the buffer is neither read-only to callers nor oldest-evicted-first. -/
theorem activityBuffer_read_mutates :
    ((getRecentActivities ((List.range 100).map (fun n => ⟨n⟩)) 10).2
        ≠ (List.range 100).map (fun n => ActivityRecord.mk n))
    ∧ (⟨99⟩ : ActivityRecord) ∉
        addActivity ((getRecentActivities ((List.range 100).map (fun n => ⟨n⟩)) 10).2) ⟨100⟩
    ∧ (⟨0⟩ : ActivityRecord) ∈
        addActivity ((getRecentActivities ((List.range 100).map (fun n => ⟨n⟩)) 10).2) ⟨100⟩
    ∧ (addActivity ((getRecentActivities ((List.range 100).map (fun n => ⟨n⟩)) 10).2)
        ⟨100⟩).length = 100
    ∧ (⟨0⟩ : ActivityRecord) ∉ addActivity ((List.range 100).map (fun n => ⟨n⟩)) ⟨100⟩
    ∧ (⟨99⟩ : ActivityRecord) ∈ addActivity ((List.range 100).map (fun n => ⟨n⟩)) ⟨100⟩ := by
  decide

/-- **C10.** For every engine state (including any state reached through
`start`, `stop` or a timer tick, whatever configuration was passed), the
`maxRepliesPerHour` field of `getStatus()` is the hardcoded constant 10,
while `isRunning`, `replyCount`, `lastResetTime` and the 5 most recent
activities are the only fields reflecting actual engine state. -/
theorem getStatus_maxReplies_hardcoded (s : EngineState) (enabled stopMid : Bool) :
    (getStatus s).maxRepliesPerHour = 10
    ∧ (getStatus (startRun s enabled stopMid)).maxRepliesPerHour = 10
    ∧ (getStatus (tick s)).maxRepliesPerHour = 10
    ∧ (getStatus (stopOp s)).maxRepliesPerHour = 10
    ∧ (getStatus s).isRunning = s.isRunning
    ∧ (getStatus s).replyCount = s.replyCount
    ∧ (getStatus s).lastResetTime = s.lastResetTime
    ∧ (getStatus s).recentActivities = (s.activities.insertionSort tsGe).take 5 :=
  ⟨rfl, rfl, rfl, rfl, rfl, rfl, rfl, rfl⟩

lemma find?_map_set_self (m : List TrendingTopic) (t : TrendingTopic)
    (hany : m.any (fun x => x.keyword == t.keyword) = true) :
    (m.map (fun x => if x.keyword == t.keyword then t else x)).find?
      (fun x => x.keyword == t.keyword) = some t := by
  induction m with
  | nil => simp at hany
  | cons x xs ih =>
    simp only [List.map_cons]
    by_cases hx : (x.keyword == t.keyword) = true
    · simp only [if_pos hx]
      exact List.find?_cons_of_pos _ (by simp)
    · simp only [if_neg hx]
      rw [List.find?_cons_of_neg _ (by simpa using hx)]
      apply ih
      simpa [hx] using hany

lemma find?_map_set_other (m : List TrendingTopic) (t : TrendingTopic) (k : Str)
    (hk : (t.keyword == k) = false) :
    (m.map (fun x => if x.keyword == t.keyword then t else x)).find?
      (fun x => x.keyword == k) = m.find? (fun x => x.keyword == k) := by
  induction m with
  | nil => rfl
  | cons x xs ih =>
    simp only [List.map_cons]
    by_cases hx : (x.keyword == t.keyword) = true
    · simp only [if_pos hx]
      have hxk : (x.keyword == k) = false := by
        have hxe : x.keyword = t.keyword := by simpa using hx
        rw [hxe]
        exact hk
      rw [List.find?_cons_of_neg _ (by simp [hk]), List.find?_cons_of_neg _ (by simp [hxk])]
      exact ih
    · simp only [if_neg hx]
      by_cases hxk : (x.keyword == k) = true
      · rw [@List.find?_cons_of_pos _ (fun y => y.keyword == k) x
            (xs.map (fun y => if y.keyword == t.keyword then t else y)) hxk,
          @List.find?_cons_of_pos _ (fun y => y.keyword == k) x xs hxk]
      · rw [List.find?_cons_of_neg _ (by simpa using hxk),
          List.find?_cons_of_neg _ (by simpa using hxk)]
        exact ih

lemma findKw_mapSet_self (m : List TrendingTopic) (t : TrendingTopic) :
    findKw (mapSet m t) t.keyword = some t := by
  simp only [mapSet, findKw]
  split
  case isTrue hany => exact find?_map_set_self m t hany
  case isFalse hany =>
    rw [List.find?_append]
    have hnone : m.find? (fun x => x.keyword == t.keyword) = none := by
      rw [List.find?_eq_none]
      intro x hx hpx
      exact hany (List.any_eq_true.mpr ⟨x, hx, hpx⟩)
    rw [hnone]
    exact @List.find?_cons_of_pos _ (fun x => x.keyword == t.keyword) t [] (beq_self_eq_true _)

lemma findKw_mapSet_other (m : List TrendingTopic) (t : TrendingTopic) (k : Str)
    (hk : t.keyword ≠ k) : findKw (mapSet m t) k = findKw m k := by
  have hkb : (t.keyword == k) = false := by simpa using hk
  simp only [mapSet, findKw]
  split
  case isTrue hany => exact find?_map_set_other m t k hkb
  case isFalse hany =>
    rw [List.find?_append]
    have hsing : ([t].find? (fun x => x.keyword == k)) = none := by
      rw [@List.find?_cons_of_neg _ (fun y => y.keyword == k) t [] (ne_true_of_eq_false hkb)]
      rfl
    rw [hsing, Option.or_none]

lemma keyword_boostTopic (x t : TrendingTopic) : (boostTopic x t).keyword = x.keyword := rfl

lemma find?_map_boost (m : List TrendingTopic) (t : TrendingTopic) :
    (m.map (fun x => if x.keyword == t.keyword then boostTopic x t else x)).find?
      (fun x => x.keyword == t.keyword)
      = (m.find? (fun x => x.keyword == t.keyword)).map (fun x => boostTopic x t) := by
  induction m with
  | nil => rfl
  | cons x xs ih =>
    simp only [List.map_cons]
    by_cases hx : (x.keyword == t.keyword) = true
    · simp only [if_pos hx]
      have hb : ((boostTopic x t).keyword == t.keyword) = true := by
        rw [keyword_boostTopic]
        exact hx
      rw [@List.find?_cons_of_pos _ (fun y => y.keyword == t.keyword) (boostTopic x t)
            (xs.map (fun y => if y.keyword == t.keyword then boostTopic y t else y)) hb,
        @List.find?_cons_of_pos _ (fun y => y.keyword == t.keyword) x xs hx]
      rfl
    · simp only [if_neg hx]
      rw [List.find?_cons_of_neg _ (by simpa using hx),
        List.find?_cons_of_neg _ (by simpa using hx)]
      exact ih

lemma find?_map_boost_other (m : List TrendingTopic) (t : TrendingTopic) (k : Str)
    (hk : (t.keyword == k) = false) :
    (m.map (fun x => if x.keyword == t.keyword then boostTopic x t else x)).find?
      (fun x => x.keyword == k) = m.find? (fun x => x.keyword == k) := by
  induction m with
  | nil => rfl
  | cons x xs ih =>
    simp only [List.map_cons]
    by_cases hx : (x.keyword == t.keyword) = true
    · simp only [if_pos hx]
      have hxk : (x.keyword == k) = false := by
        have hxe : x.keyword = t.keyword := by simpa using hx
        rw [hxe]
        exact hk
      have hbk : ((boostTopic x t).keyword == k) = false := by
        rw [keyword_boostTopic]
        exact hxk
      rw [List.find?_cons_of_neg _ (by simp [hbk]), List.find?_cons_of_neg _ (by simp [hxk])]
      exact ih
    · simp only [if_neg hx]
      by_cases hxk : (x.keyword == k) = true
      · rw [@List.find?_cons_of_pos _ (fun y => y.keyword == k) x
            (xs.map (fun y => if y.keyword == t.keyword then boostTopic y t else y)) hxk,
          @List.find?_cons_of_pos _ (fun y => y.keyword == k) x xs hxk]
      · rw [List.find?_cons_of_neg _ (by simpa using hxk),
          List.find?_cons_of_neg _ (by simpa using hxk)]
        exact ih

lemma findKw_boostOrInsert_found (m : List TrendingTopic) (t x : TrendingTopic)
    (hf : findKw m t.keyword = some x) :
    findKw (boostOrInsert m t) t.keyword = some (boostTopic x t) := by
  have hf' : m.find? (fun y => y.keyword == t.keyword) = some x := hf
  have hany : m.any (fun y => y.keyword == t.keyword) = true :=
    List.any_eq_true.mpr ⟨x, List.mem_of_find?_eq_some hf',
      @List.find?_some _ (fun y => y.keyword == t.keyword) x m hf'⟩
  simp only [boostOrInsert, findKw, if_pos hany]
  rw [find?_map_boost, hf']
  rfl

lemma findKw_boostOrInsert_none (m : List TrendingTopic) (t : TrendingTopic)
    (hf : findKw m t.keyword = none) :
    findKw (boostOrInsert m t) t.keyword = some t := by
  have hany : m.any (fun y => y.keyword == t.keyword) = false := by
    rw [findKw, List.find?_eq_none] at hf
    rw [List.any_eq_false]
    exact hf
  have hf' : m.find? (fun y => y.keyword == t.keyword) = none := hf
  simp only [boostOrInsert, findKw, hany, Bool.false_eq_true, if_false]
  rw [List.find?_append, hf']
  exact @List.find?_cons_of_pos _ (fun x => x.keyword == t.keyword) t [] (beq_self_eq_true _)

lemma findKw_boostOrInsert_other (m : List TrendingTopic) (t : TrendingTopic) (k : Str)
    (hk : t.keyword ≠ k) : findKw (boostOrInsert m t) k = findKw m k := by
  have hkb : (t.keyword == k) = false := by simpa using hk
  simp only [boostOrInsert, findKw]
  split
  case isTrue hany => exact find?_map_boost_other m t k hkb
  case isFalse hany =>
    rw [List.find?_append]
    have hsing : ([t].find? (fun x => x.keyword == k)) = none := by
      rw [@List.find?_cons_of_neg _ (fun y => y.keyword == k) t [] (ne_true_of_eq_false hkb)]
      rfl
    rw [hsing, Option.or_none]

lemma findKw_foldl_mapSet_none (cs : List TrendingTopic) (init : List TrendingTopic) (k : Str)
    (h : ∀ c ∈ cs, c.keyword ≠ k) :
    findKw (cs.foldl mapSet init) k = findKw init k := by
  induction cs generalizing init with
  | nil => rfl
  | cons c cs ih =>
    rw [List.foldl_cons, ih _ (fun d hd => h d (List.mem_cons_of_mem _ hd)),
      findKw_mapSet_other _ _ _ (h c (List.mem_cons_self _ _))]

lemma findKw_foldl_boost_none (ts : List TrendingTopic) (init : List TrendingTopic) (k : Str)
    (h : ∀ c ∈ ts, c.keyword ≠ k) :
    findKw (ts.foldl boostOrInsert init) k = findKw init k := by
  induction ts generalizing init with
  | nil => rfl
  | cons c cs ih =>
    rw [List.foldl_cons, ih _ (fun d hd => h d (List.mem_cons_of_mem _ hd)),
      findKw_boostOrInsert_other _ _ _ (h c (List.mem_cons_self _ _))]

lemma findKw_foldl_mapSet_mem (cs : List TrendingTopic) (init : List TrendingTopic)
    (tc : TrendingTopic) (hp : cs.Pairwise (fun a b => a.keyword ≠ b.keyword))
    (hmem : tc ∈ cs) :
    findKw (cs.foldl mapSet init) tc.keyword = some tc := by
  obtain ⟨l1, l2, rfl⟩ := List.append_of_mem hmem
  rw [List.foldl_append, List.foldl_cons]
  have h2 : ∀ d ∈ l2, d.keyword ≠ tc.keyword := by
    intro d hd
    exact fun he => (List.pairwise_cons.mp (List.pairwise_append.mp hp).2.1).1 d hd he.symm
  rw [findKw_foldl_mapSet_none l2 _ tc.keyword h2]
  exact findKw_mapSet_self _ tc

lemma findKw_foldl_boost_mem_found (ts : List TrendingTopic) (init : List TrendingTopic)
    (tt x : TrendingTopic) (hp : ts.Pairwise (fun a b => a.keyword ≠ b.keyword))
    (hmem : tt ∈ ts) (hx : findKw init tt.keyword = some x) :
    findKw (ts.foldl boostOrInsert init) tt.keyword = some (boostTopic x tt) := by
  obtain ⟨l1, l2, rfl⟩ := List.append_of_mem hmem
  rw [List.foldl_append, List.foldl_cons]
  have h1 : ∀ d ∈ l1, d.keyword ≠ tt.keyword := by
    intro d hd
    exact (List.pairwise_append.mp hp).2.2 d hd tt (List.mem_cons_self _ _)
  have h2 : ∀ d ∈ l2, d.keyword ≠ tt.keyword := by
    intro d hd
    exact fun he => (List.pairwise_cons.mp (List.pairwise_append.mp hp).2.1).1 d hd he.symm
  rw [findKw_foldl_boost_none l2 _ tt.keyword h2]
  apply findKw_boostOrInsert_found
  rw [findKw_foldl_boost_none l1 init tt.keyword h1]
  exact hx

lemma findKw_foldl_boost_mem_none (ts : List TrendingTopic) (init : List TrendingTopic)
    (tt : TrendingTopic) (hp : ts.Pairwise (fun a b => a.keyword ≠ b.keyword))
    (hmem : tt ∈ ts) (hx : findKw init tt.keyword = none) :
    findKw (ts.foldl boostOrInsert init) tt.keyword = some tt := by
  obtain ⟨l1, l2, rfl⟩ := List.append_of_mem hmem
  rw [List.foldl_append, List.foldl_cons]
  have h1 : ∀ d ∈ l1, d.keyword ≠ tt.keyword := by
    intro d hd
    exact (List.pairwise_append.mp hp).2.2 d hd tt (List.mem_cons_self _ _)
  have h2 : ∀ d ∈ l2, d.keyword ≠ tt.keyword := by
    intro d hd
    exact fun he => (List.pairwise_cons.mp (List.pairwise_append.mp hp).2.1).1 d hd he.symm
  rw [findKw_foldl_boost_none l2 _ tt.keyword h2]
  apply findKw_boostOrInsert_none
  rw [findKw_foldl_boost_none l1 init tt.keyword h1]
  exact hx

/-- **C6.** In the trend merge, for every keyword present (with pairwise
distinct keywords within each source list, as each source produces) in both
the market-source list (score `m`, volume `v₁`) and the timeline list (score
`t`, volume `v₂`), the merged map's entry has
`relevanceScore = m + 0.5·t` and `volume = v₁ + v₂`; a keyword present in
only one source keeps its record unchanged; and the final `combineTrends`
result is sorted descending by `relevanceScore` and holds at most 20
entries. -/
theorem combineTrends_merge_spec (cryptoTrends twitterTrends : List TrendingTopic)
    (hc : cryptoTrends.Pairwise (fun a b => a.keyword ≠ b.keyword))
    (ht : twitterTrends.Pairwise (fun a b => a.keyword ≠ b.keyword)) :
    (∀ tc ∈ cryptoTrends, ∀ tt ∈ twitterTrends, tt.keyword = tc.keyword →
      findKw (mergedMap cryptoTrends twitterTrends) tc.keyword =
        some { tc with relevanceScore := tc.relevanceScore + tt.relevanceScore * (1 / 2),
                       volume := tc.volume + tt.volume })
    ∧ (∀ tc ∈ cryptoTrends, (∀ tt ∈ twitterTrends, tt.keyword ≠ tc.keyword) →
        findKw (mergedMap cryptoTrends twitterTrends) tc.keyword = some tc)
    ∧ (∀ tt ∈ twitterTrends, (∀ tc ∈ cryptoTrends, tc.keyword ≠ tt.keyword) →
        findKw (mergedMap cryptoTrends twitterTrends) tt.keyword = some tt)
    ∧ List.Sorted scoreGe (combineTrends cryptoTrends twitterTrends)
    ∧ (combineTrends cryptoTrends twitterTrends).length ≤ 20 := by
  refine ⟨?_, ?_, ?_, ?_, ?_⟩
  · intro tc htc tt htt hk
    have h1 : findKw (cryptoTrends.foldl mapSet []) tc.keyword = some tc :=
      findKw_foldl_mapSet_mem cryptoTrends [] tc hc htc
    have h2 := findKw_foldl_boost_mem_found twitterTrends (cryptoTrends.foldl mapSet [])
      tt tc ht htt (hk ▸ h1)
    rw [mergedMap]
    conv_lhs => rw [← hk]
    exact h2
  · intro tc htc htt
    have h1 : findKw (cryptoTrends.foldl mapSet []) tc.keyword = some tc :=
      findKw_foldl_mapSet_mem cryptoTrends [] tc hc htc
    rw [mergedMap, findKw_foldl_boost_none twitterTrends _ tc.keyword htt]
    exact h1
  · intro tt htt htc
    have h0 : findKw (cryptoTrends.foldl mapSet []) tt.keyword = none :=
      findKw_foldl_mapSet_none cryptoTrends [] tt.keyword htc
    rw [mergedMap]
    exact findKw_foldl_boost_mem_none twitterTrends _ tt ht htt h0
  · exact List.Pairwise.sublist (List.take_sublist _ _)
      (List.sorted_insertionSort scoreGe (mergedMap cryptoTrends twitterTrends))
  · exact List.length_take_le _ _

/-- Witness for C6 at concrete two-entry source lists sharing the keyword
"defi". -/
theorem combineTrends_merge_spec_witness :
    ([⟨("btc".data), 10, .positive, .crypto, 95⟩,
        ⟨("defi".data), 5, .neutral, .defi, 85⟩] :
      List TrendingTopic).Pairwise (fun a b => a.keyword ≠ b.keyword)
    ∧ ([⟨("defi".data), 3, .positive, .defi, 50⟩,
          ⟨("nft".data), 2, .neutral, .nft, 40⟩] :
        List TrendingTopic).Pairwise (fun a b => a.keyword ≠ b.keyword)
    ∧ List.Sorted scoreGe (combineTrends
        [⟨("btc".data), 10, .positive, .crypto, 95⟩,
          ⟨("defi".data), 5, .neutral, .defi, 85⟩]
        [⟨("defi".data), 3, .positive, .defi, 50⟩,
          ⟨("nft".data), 2, .neutral, .nft, 40⟩]) :=
  ⟨by decide, by decide,
    (combineTrends_merge_spec
      [⟨("btc".data), 10, .positive, .crypto, 95⟩,
        ⟨("defi".data), 5, .neutral, .defi, 85⟩]
      [⟨("defi".data), 3, .positive, .defi, 50⟩,
        ⟨("nft".data), 2, .neutral, .nft, 40⟩]
      (by decide) (by decide)).2.2.2.1⟩

lemma defiTimeline_eval :
    timelineTopic ("defi".data) 3 20 =
      ⟨("defi".data), 3, .positive, .defi, 50⟩ := by
  have hcat : categorizeKeyword ("defi".data) = Category.defi := by decide
  simp only [timelineTopic, hcat]
  norm_num [TrendingTopic.mk.injEq, min_def]

lemma combineTrends_unfold (a b : List TrendingTopic) :
    combineTrends a b = ((mergedMap a b).insertionSort scoreGe).take 20 := rfl

lemma combineTrends_fallback_defi_eval :
    combineTrends (getCryptoTrends (.error ("boom".data)))
        [timelineTopic ("defi".data) 3 20]
      = [ ⟨("defi".data), 500003, .neutral, .defi, 110⟩,
          ⟨("bitcoin".data), 1000000, .positive, .crypto, 95⟩,
          ⟨("ethereum".data), 800000, .positive, .crypto, 90⟩,
          ⟨("trading".data), 300000, .positive, .trading, 80⟩ ] := by
  have hmap : mergedMap (getCryptoTrends (.error ("boom".data)))
      [⟨("defi".data), 3, .positive, .defi, 50⟩]
      = [ ⟨("bitcoin".data), 1000000, .positive, .crypto, 95⟩,
          ⟨("ethereum".data), 800000, .positive, .crypto, 90⟩,
          boostTopic ⟨("defi".data), 500000, .neutral, .defi, 85⟩
            ⟨("defi".data), 3, .positive, .defi, 50⟩,
          ⟨("trading".data), 300000, .positive, .trading, 80⟩ ] := by rfl
  have hboost : boostTopic ⟨("defi".data), 500000, .neutral, .defi, 85⟩
      ⟨("defi".data), 3, .positive, .defi, 50⟩
      = ⟨("defi".data), 500003, .neutral, .defi, 110⟩ := by
    simp only [boostTopic, TrendingTopic.mk.injEq]
    norm_num
  rw [combineTrends_unfold, defiTimeline_eval, hmap, hboost]
  decide

/-- **C7 counterexample.** The claim says the aggregated list contains a
"defi" entry with score `min(100, 3·10+20) = 50` "merged with nothing from
the market side, with the fallback entries present separately alongside it" —
but the fixed 4-entry fallback list itself contains a "defi" entry (score
85), so the timeline "defi" topic is merged into it: no entry of the final
list carries score 50. -/
theorem trend_fallback_merge_cex :
    ¬ ∃ x ∈ combineTrends (getCryptoTrends (.error ("boom".data)))
        [timelineTopic ("defi".data) 3 20],
        x.keyword = ("defi".data) ∧ x.relevanceScore = 50 := by
  rw [combineTrends_fallback_defi_eval]
  decide

/-- **C7 amended.** When the market source throws and the timeline analysis
yields a "defi" topic with occurrence count 3 and average engagement 20
(score `min(100, 3·10+20) = 50`), aggregation still returns a non-empty list:
the fixed 4-entry fallback trend list is substituted for the market side, and
the timeline "defi" entry is merged into the fallback's own "defi" entry,
giving score `85 + 0.5·50 = 110` and volume `500000 + 3`, ranked first ahead
of the remaining fallback entries bitcoin (95), ethereum (90) and trading
(80). -/
theorem trend_fallback_merge_amended :
    combineTrends (getCryptoTrends (.error ("boom".data)))
        [timelineTopic ("defi".data) 3 20]
      = [ ⟨("defi".data), 500003, .neutral, .defi, 110⟩,
          ⟨("bitcoin".data), 1000000, .positive, .crypto, 95⟩,
          ⟨("ethereum".data), 800000, .positive, .crypto, 90⟩,
          ⟨("trading".data), 300000, .positive, .trading, 80⟩ ]
    ∧ combineTrends (getCryptoTrends (.error ("boom".data)))
        [timelineTopic ("defi".data) 3 20] ≠ []
    ∧ timelineTopic ("defi".data) 3 20 = ⟨("defi".data), 3, .positive, .defi, 50⟩ := by
  refine ⟨combineTrends_fallback_defi_eval, ?_, defiTimeline_eval⟩
  rw [combineTrends_fallback_defi_eval]
  decide
